import Mathlib

/-!
Verification of the FinSight RAG retrieval-orchestration pipeline.

Shallow embedding of the Python sources:
  backend/app/rag/reranker.py        (MMR reranking)
  backend/app/rag/retriever.py       (document retrieval with caching)
  backend/app/rag/query_expander.py  (query decomposition and expansion)
  backend/app/rag/chain.py           (response-cache gating)
  backend/app/utils/cache.py         (three TTL caches)
  backend/app/utils/conversation.py  (bounded conversation history)
  backend/app/utils/citations.py     (citation tracking)

Modelling conventions:
  * machine floats carrying exact small integers/fractions are modelled as ℚ;
  * `time.time()` is an explicit `now : Nat` parameter;
  * Python dicts are association lists in insertion order (assignment to an
    existing key replaces in place, a fresh key appends, deletion filters);
  * `hashlib.md5(s).hexdigest()` keys are modelled by the normalized string
    `s` itself (the digest is injective on the inputs of interest);
  * external fallible calls (OpenAI embeddings, the LLM, Milvus) are oracle
    parameters; a call that raises is an `Except.error` / `none` outcome;
  * Python's stable `sorted` is `List.mergeSort` (stable merge sort);
    `reverse=True` is a reversed comparator, which preserves stability.
-/

/-! ### Data model: langchain `Document` (content plus metadata dict) -/

structure Metadata where
  filename : Option String := none
  chunk_id : Option String := none
  doc_type : Option String := none
  ticker : Option String := none
  similarity_score : Option ℚ := none
deriving DecidableEq, Repr

structure Document where
  page_content : String
  metadata : Metadata
deriving DecidableEq, Repr

/-! ### Reranker (backend/app/rag/reranker.py)

The MMR loop consumes only similarity numbers.  Real cosine values of
embedding vectors are irrational (they involve square roots), so the model
takes the query-to-document similarities `qsim i` (the array
`query_similarities`) and the pairwise document similarities `dsim i j`
(`_cosine_similarity(doc_vecs[idx], selected_vecs)`) as inputs; the reranker
is a function of those values exactly as the source loop is. -/

/-- `metadata.get('similarity_score', 0)` in `_fallback_rerank`. -/
def simScore (d : Document) : ℚ :=
  d.metadata.similarity_score.getD 0

/-- `np.max` over a non-empty array of rationals. -/
def npMaxQ (x : ℚ) (xs : List ℚ) : ℚ :=
  xs.foldl max x

/-- Redundancy of candidate `idx` with the already selected documents:
`np.max(cosine(doc_vecs[idx], selected_vecs))`, and `0` when nothing has
been selected yet (reranker.py lines 77-84). -/
def redundancy (dsim : Nat → Nat → ℚ) (selected : List Nat) (idx : Nat) : ℚ :=
  match selected with
  | [] => 0
  | j :: js => npMaxQ (dsim idx j) (js.map (dsim idx))

/-- The MMR score of candidate `idx`
(`diversity_score * relevance - (1 - diversity_score) * redundancy`). -/
def mmrScore (lam : ℚ) (qsim : Nat → ℚ) (dsim : Nat → Nat → ℚ)
    (selected : List Nat) (idx : Nat) : ℚ :=
  lam * qsim idx - (1 - lam) * redundancy dsim selected idx

/-- Python's `max(scores, key=lambda x: x[1])` on a non-empty list: walk the
list keeping the current best, replacing it only on a strictly greater key,
so the first maximal element wins. -/
def pyMaxSnd (p : Nat × ℚ) (rest : List (Nat × ℚ)) : Nat × ℚ :=
  rest.foldl (fun best q => if best.2 < q.2 then q else best) p

/-- The greedy selection loop of `MMRReranker.rerank` (lines 64-93): the
fuel is `min(top_k, len(documents))`, `selected` and `remaining` are the
index lists, each round builds `mmr_scores` over `remaining` and moves the
`max(..., key=...)` winner from `remaining` to `selected`. -/
def mmrGo (lam : ℚ) (qsim : Nat → ℚ) (dsim : Nat → Nat → ℚ) :
    Nat → List Nat → List Nat → List Nat
  | 0, selected, _ => selected
  | _ + 1, selected, [] => selected
  | fuel + 1, selected, r :: rs =>
    let score := fun idx => (idx, mmrScore lam qsim dsim selected idx)
    let best := pyMaxSnd (score r) (rs.map score)
    mmrGo lam qsim dsim fuel (selected ++ [best.1]) ((r :: rs).erase best.1)

/-- `MMRReranker._fallback_rerank`: stable sort by the stored
`similarity_score` metadata (missing treated as `0`) in descending order,
then take the first `top_k`. -/
def fallback_rerank (documents : List Document) (top_k : Nat) : List Document :=
  (documents.mergeSort (fun a b => decide (simScore b ≤ simScore a))).take top_k

/-- `MMRReranker.rerank`.  `embed = some (qsim, dsim)` is a successful pair
of embedding calls yielding those cosine similarities; `embed = none` is an
embedding (or arithmetic) failure, caught by the `except` clause, which
falls back to `_fallback_rerank` instead of propagating. -/
def rerank (embed : Option ((Nat → ℚ) × (Nat → Nat → ℚ))) (lam : ℚ)
    (documents : List Document) (top_k : Nat) : List Document :=
  if documents.isEmpty then []
  else if documents.length ≤ top_k then documents
  else
    match embed with
    | some (qsim, dsim) =>
      let selected :=
        mmrGo lam qsim dsim (min top_k documents.length) [] (List.range documents.length)
      selected.filterMap (fun i => documents[i]?)
    | none => fallback_rerank documents top_k

/-! Spec-side greedy MMR (section 4.4 of the spec, stated in its own words):
"select the unselected index with the strictly maximum `mmr` score (ties
broken by the first-encountered index in iteration order)". -/

/-- The maximum of `f` over the indices `b :: xs`. -/
def listMaxQ (f : Nat → ℚ) (b : Nat) (xs : List Nat) : ℚ :=
  xs.foldl (fun a i => max a (f i)) (f b)

/-- The first-encountered index attaining the maximum score. -/
def firstArgmax (f : Nat → ℚ) : List Nat → Option Nat
  | [] => none
  | b :: xs => (b :: xs).find? (fun i => decide (f i = listMaxQ f b xs))

/-- Spec-side greedy loop: repeatedly append the first-encountered maximal
candidate to the selection and remove it from the candidates. -/
def specSelect (lam : ℚ) (qsim : Nat → ℚ) (dsim : Nat → Nat → ℚ) :
    Nat → List Nat → List Nat → List Nat
  | 0, selected, _ => selected
  | fuel + 1, selected, remaining =>
    match firstArgmax (mmrScore lam qsim dsim selected) remaining with
    | none => selected
    | some best =>
      specSelect lam qsim dsim fuel (selected ++ [best]) (remaining.erase best)

/-- Spec-side reranking: run the greedy loop `top_k` times starting from the
empty selection over all document indices, and list the documents in
selection order. -/
def mmrGreedyRerank (lam : ℚ) (qsim : Nat → ℚ) (dsim : Nat → Nat → ℚ)
    (documents : List Document) (top_k : Nat) : List Document :=
  (specSelect lam qsim dsim top_k [] (List.range documents.length)).filterMap
    (fun i => documents[i]?)

/-! `MMRReranker._cosine_similarity` (lines 103-130) normalizes both vectors
by their L2 norms and takes the dot product, with no guard on a zero norm:
`vec / np.linalg.norm(vec)` on a zero vector divides by zero and produces
NaN entries.  The norm `sqrt(Σ xᵢ²)` is irrational, so the value is kept
symbolic: a finite cosine is determined by the pair
`(dot v w, ‖v‖² * ‖w‖²)` (its value is `dot / sqrt(‖v‖²·‖w‖²)`), and a zero
norm yields `none`, the non-finite (NaN) outcome of the unguarded
division. -/

/-- Squared L2 norm `Σ xᵢ²` (`np.linalg.norm(v)` squared). -/
def l2NormSq (v : List ℚ) : ℚ :=
  (v.map (fun x => x * x)).sum

/-- Dot product of two vectors. -/
def dotProduct (v w : List ℚ) : ℚ :=
  (List.zipWith (fun a b => a * b) v w).sum

/-- `_cosine_similarity` for one pair of vectors, symbolically:
`some (dot, denomSq)` stands for the finite value `dot / sqrt denomSq`;
`none` is the NaN produced by the unguarded division when a norm is zero. -/
def cosine_similarity (v w : List ℚ) : Option (ℚ × ℚ) :=
  if l2NormSq v = 0 ∨ l2NormSq w = 0 then none
  else some (dotProduct v w, l2NormSq v * l2NormSq w)

/-! ### Cache layer (backend/app/utils/cache.py) -/

/-- `CacheEntry`: value, creation time, ttl, hit counter. -/
structure CacheEntry (V : Type) where
  value : V
  created_at : Nat
  ttl : Nat
  hit_count : Nat
deriving DecidableEq, Repr

/-- One cache table (`EmbeddingCache` / `QueryResponseCache` /
`DocumentCache` all share this shape): a dict from derived key to entry in
insertion order, a capacity, a ttl and hit/miss counters. -/
structure CacheTable (V : Type) where
  cache : List (String × CacheEntry V)
  max_size : Nat
  ttl : Nat
  hits : Nat
  misses : Nat
deriving DecidableEq, Repr

/-- `CacheEntry.is_expired`: `time.time() - created_at > ttl` (a clock never
runs backwards, so `Nat` subtraction is exact here). -/
def is_expired (now : Nat) (e : CacheEntry V) : Bool :=
  decide (now - e.created_at > e.ttl)

/-- The keys of the table in dict (insertion) order. -/
def keysOf (t : CacheTable V) : List String :=
  t.cache.map (fun p => p.1)

/-- Generic `get` body shared by the three caches: a present, unexpired key
is a hit (increment the entry's and the table's counters and return the
value); an expired entry is deleted; otherwise a miss. -/
def cacheGet (t : CacheTable V) (key : String) (now : Nat) :
    Option V × CacheTable V :=
  match t.cache.find? (fun p => p.1 == key) with
  | some pe =>
    if is_expired now pe.2 then
      let deleted := t.cache.filter (fun p => !(p.1 == key))
      (none, { t with cache := deleted, misses := t.misses + 1 })
    else
      let bumped := t.cache.map (fun p =>
        if p.1 == key then (p.1, { p.2 with hit_count := p.2.hit_count + 1 }) else p)
      (some pe.2.value, { t with cache := bumped, hits := t.hits + 1 })
  | none => (none, { t with misses := t.misses + 1 })

/-- `max(1, self.max_size // 10)`. -/
def num_to_remove (t : CacheTable V) : Nat :=
  max 1 (t.max_size / 10)

/-- `self.cache[k].created_at` for a key taken from the dict. -/
def createdOf (t : CacheTable V) (k : String) : Nat :=
  ((t.cache.find? (fun p => p.1 == k)).map (fun p => p.2.created_at)).getD 0

/-- `self.cache[k].hit_count` for a key taken from the dict. -/
def hitCountOf (t : CacheTable V) (k : String) : Nat :=
  ((t.cache.find? (fun p => p.1 == k)).map (fun p => p.2.hit_count)).getD 0

/-- `del cache[k]` for each key of `ks` in turn. -/
def delKeys (cache : List (String × CacheEntry V)) (ks : List String) :
    List (String × CacheEntry V) :=
  ks.foldl (fun c k => c.filter (fun p => !(p.1 == k))) cache

/-- `_evict_oldest` (EmbeddingCache lines 96-107, DocumentCache lines
335-344): delete the first `max(1, max_size // 10)` keys sorted by creation
time. -/
def evict_oldest (t : CacheTable V) : CacheTable V :=
  let sorted_keys := (keysOf t).mergeSort (fun a b => decide (createdOf t a ≤ createdOf t b))
  { t with cache := delKeys t.cache (sorted_keys.take (num_to_remove t)) }

/-- `_evict_lru` (QueryResponseCache lines 229-240): delete the first
`max(1, max_size // 10)` keys sorted by the pair `(hit_count, created_at)`
in lexicographic order. -/
def evict_lru (t : CacheTable V) : CacheTable V :=
  let lruLe := fun a b =>
    decide (hitCountOf t a < hitCountOf t b ∨
      (hitCountOf t a = hitCountOf t b ∧ createdOf t a ≤ createdOf t b))
  let sorted_keys := (keysOf t).mergeSort lruLe
  { t with cache := delKeys t.cache (sorted_keys.take (num_to_remove t)) }

/-- `self.cache[key] = entry` on a Python dict: replace in place when the
key is present, append otherwise. -/
def dictInsert (cache : List (String × CacheEntry V)) (key : String)
    (e : CacheEntry V) : List (String × CacheEntry V) :=
  if (cache.find? (fun p => p.1 == key)).isSome then
    cache.map (fun p => if p.1 == key then (key, e) else p)
  else cache ++ [(key, e)]

/-- Generic `set` body shared by the three caches: evict (by the policy of
the cache) when at capacity, then insert a fresh entry. -/
def cacheSetWith (evict : CacheTable V → CacheTable V) (t : CacheTable V)
    (key : String) (v : V) (now : Nat) : CacheTable V :=
  let t1 := if t.cache.length ≥ t.max_size then evict t else t
  { t1 with cache := dictInsert t1.cache key ⟨v, now, t1.ttl, 0⟩ }

/-- Python `str.lower()` (character-wise lowering, structurally recursive
so that concrete keys evaluate). -/
def pyLower (s : String) : String :=
  String.mk (s.toList.map Char.toLower)

/-- Python `str.strip()`: drop whitespace from both ends. -/
def pyStrip (s : String) : String :=
  String.mk (((s.toList.dropWhile Char.isWhitespace).reverse.dropWhile
    Char.isWhitespace).reverse)

/-- Python `str.startswith(pre)`. -/
def pyStartsWith (s pre : String) : Bool :=
  pre.toList.isPrefixOf s.toList

/-- Split a character list at every character satisfying `p` (keeping empty
pieces, like Python's `str.split(sep)` with an explicit separator). -/
def splitOnPred (p : Char → Bool) : List Char → List (List Char)
  | [] => [[]]
  | c :: t =>
    let r := splitOnPred p t
    if p c then [] :: r
    else
      match r with
      | [] => [[c]]
      | h :: rest => (c :: h) :: rest

/-- Python `content.split('\n')`. -/
def pySplitLines (s : String) : List String :=
  (splitOnPred (fun c => c = '\n') s.toList).map String.mk

/-- `EmbeddingCache._generate_key`: md5 of `text.lower().strip()`, modelled
by the normalized text. -/
def embedding_key (text : String) : String :=
  pyStrip (pyLower text)

/-- Normalization of the optional ticker (`ticker.lower() if ticker else ""`;
Python truthiness makes the empty string behave like `None`). -/
def tickerNorm : Option String → String
  | none => ""
  | some t => if t = "" then "" else pyLower t

/-- Normalization of the optional doc-type list
(`sorted(doc_types) if doc_types else []`). -/
def docTypesNorm : Option (List String) → List String
  | none => []
  | some dts => dts.mergeSort (fun a b => decide (a ≤ b))

/-- `DocumentCache._generate_key`:
`f"{query.lower().strip()}|{ticker_normalized}|{','.join(doc_types_normalized)}"`. -/
def document_key (query : String) (ticker : Option String)
    (doc_types : Option (List String)) : String :=
  pyStrip (pyLower query) ++ "|" ++ tickerNorm ticker ++ "|" ++
    String.intercalate "," (docTypesNorm doc_types)

/-- `QueryResponseCache._generate_key`: `"|".join([query_normalized,
ticker_normalized, ",".join(doc_types_normalized), str(top_k)])`. -/
def response_key (query : String) (ticker : Option String)
    (doc_types : Option (List String)) (top_k : Nat) : String :=
  String.intercalate "|"
    [pyStrip (pyLower query), tickerNorm ticker,
     String.intercalate "," (docTypesNorm doc_types), toString top_k]

/-- A single `get`/`set` call on a cache table, at the level of derived
keys (`get` and `set` of every cache first derive the key and then run the
shared table logic above). -/
inductive CacheOp (V : Type) where
  | get (key : String) (now : Nat)
  | set (key : String) (v : V) (now : Nat)

/-- Apply one operation under the given eviction policy. -/
def applyOpWith (evict : CacheTable V → CacheTable V) (t : CacheTable V) :
    CacheOp V → CacheTable V
  | .get k now => (cacheGet t k now).2
  | .set k v now => cacheSetWith evict t k v now

/-! ### Conversation history (backend/app/utils/conversation.py) -/

structure ConversationMessage where
  role : String
  content : String
  timestamp : Nat := 0
deriving DecidableEq, Repr

/-- `sum(len(msg.content) for msg in messages)`. -/
def total_chars (messages : List ConversationMessage) : Nat :=
  (messages.map (fun m => m.content.length)).sum

/-- The backward walk of `_trim_history` (lines 104-109): scan message
lengths from the most recent (`rlens` is the reversed length list, `i` the
index of the message being examined), accumulating characters; return
`some (i + 1)` at the first message that would exceed the budget, `none`
when the walk completes without a break. -/
def scanBack (chars_limit : Nat) : List Nat → Nat → Nat → Option Nat
  | [], _, _ => none
  | l :: rest, i, cum =>
    if cum + l > chars_limit then some (i + 1)
    else scanBack chars_limit rest (i - 1) (cum + l)

/-- `ConversationHistory._trim_history`.  The token estimate is the exact
value `total_chars / 4` (Python float division of small integers is exact).
In Python `len(messages) - 2` can be negative for a one-message history; in
that case `min` yields a non-positive index and the final `if` keeps the
list unchanged, which is also what the ℕ-truncated subtraction gives. -/
def trim_history (max_tokens : Nat) (messages : List ConversationMessage) :
    List ConversationMessage :=
  if messages.isEmpty then messages
  else
    let estimated_tokens : ℚ := (total_chars messages : ℚ) / 4
    if estimated_tokens ≤ (max_tokens : ℚ) then messages
    else
      let chars_limit := max_tokens * 4
      let rlens := (messages.map (fun m => m.content.length)).reverse
      let keep0 := (scanBack chars_limit rlens (messages.length - 1) 0).getD messages.length
      let keep_from_index := min keep0 (messages.length - 2)
      if keep_from_index > 0 then messages.drop keep_from_index else messages

/-- `ConversationHistory.add_message`: append, then trim. -/
def add_message (max_tokens : Nat) (messages : List ConversationMessage)
    (role content : String) (now : Nat) : List ConversationMessage :=
  trim_history max_tokens (messages ++ [⟨role, content, now⟩])

/-! ### Citation tracker (backend/app/utils/citations.py) -/

structure CitationTracker where
  sources : List Document
  source_map : List (String × Nat)
deriving DecidableEq, Repr

/-- The fresh tracker built per request (`CitationTracker()`). -/
def CitationTracker.init : CitationTracker := ⟨[], []⟩

/-- `CitationTracker._create_doc_key`: `f"{filename}_{chunk_id}"` with
`'unknown'` defaults. -/
def create_doc_key (doc : Document) : String :=
  doc.metadata.filename.getD "unknown" ++ "_" ++ doc.metadata.chunk_id.getD "unknown"

/-- `CitationTracker.add_document`: return the existing 1-based id for a
known key, otherwise append the document and assign `len(sources) + 1`. -/
def add_document (t : CitationTracker) (doc : Document) : Nat × CitationTracker :=
  let doc_key := create_doc_key doc
  match t.source_map.find? (fun p => p.1 == doc_key) with
  | some p => (p.2, t)
  | none =>
    let source_id := t.sources.length + 1
    (source_id, ⟨t.sources ++ [doc], t.source_map ++ [(doc_key, source_id)]⟩)

/-- The loop of `format_context_with_citations`: add each document (as a
side effect on the tracker) and emit its `[Source N] content` block. -/
def format_context_go (t : CitationTracker) :
    List Document → CitationTracker × List String
  | [] => (t, [])
  | d :: ds =>
    let r := add_document t d
    let rest := format_context_go r.2 ds
    (rest.1, ("[Source " ++ toString r.1 ++ "] " ++ d.page_content) :: rest.2)

/-- `CitationTracker.format_context_with_citations`: the blocks joined by
blank lines, together with the updated tracker. -/
def format_context_with_citations (t : CitationTracker) (documents : List Document) :
    CitationTracker × String :=
  let r := format_context_go t documents
  (r.1, String.intercalate "\n\n" r.2)

/-- Spec-side: the unique keys of a list in first-seen order. -/
def firstSeen (ks : List String) : List String :=
  ks.foldl (fun acc k => if k ∈ acc then acc else acc ++ [k]) []

/-- Spec-side: the 1-based first-seen rank of a document's identity key
among the keys of `docs`. -/
def specRank (docs : List Document) (d : Document) : Nat :=
  (firstSeen (docs.map create_doc_key)).indexOf (create_doc_key d) + 1

/-! ### Retriever (backend/app/rag/retriever.py) -/

/-- `ZillizRetriever._build_filter_expression`.  `if ticker:` and
`if doc_types:` are Python truthiness tests, so an empty string or an empty
list contributes no condition. -/
def build_filter_expression (ticker : Option String)
    (doc_types : Option (List String)) : Option String :=
  let tickerConds := match ticker with
    | some t => if t = "" then [] else ["ticker == \"" ++ t ++ "\""]
    | none => []
  let docTypeConds := match doc_types with
    | some dts =>
      if dts.isEmpty then []
      else ["(" ++ String.intercalate " or "
              (dts.map (fun dt => "doc_type == \"" ++ dt ++ "\"")) ++ ")"]
    | none => []
  let conditions := tickerConds ++ docTypeConds
  if conditions.isEmpty then none else some (String.intercalate " and " conditions)

/-- `doc.metadata['similarity_score'] = float(score)` over the raw search
results (retriever.py lines 128-132). -/
def attachScores (results : List (Document × ℚ)) : List Document :=
  results.map (fun p =>
    { p.1 with metadata := { p.1.metadata with similarity_score := some p.2 } })

/-- `ZillizRetriever.retrieve`.  `search k expr` is the external
`vector_store.similarity_search_with_score` call (scored passages for the
current query).  The returned flag records whether VectorSearch was
called. -/
def retrieve (enable_cache : Bool)
    (search : Nat → Option String → List (Document × ℚ))
    (dc : CacheTable (List Document)) (query : String) (ticker : Option String)
    (doc_types : Option (List String)) (top_k : Nat) (now : Nat) :
    List Document × CacheTable (List Document) × Bool :=
  let got := if enable_cache then cacheGet dc (document_key query ticker doc_types) now
             else (none, dc)
  match got with
  | (some cached_docs, dc1) => (cached_docs.take top_k, dc1, false)
  | (none, dc1) =>
    let filter_expr := build_filter_expression ticker doc_types
    let results := search top_k filter_expr
    let documents := attachScores results
    let dc2 :=
      if enable_cache then
        cacheSetWith evict_oldest dc1 (document_key query ticker doc_types) documents now
      else dc1
    (documents, dc2, true)

/-! ### Query expander (backend/app/rag/query_expander.py)

The two LLM calls are oracles: `dec query` is the decomposition completion,
`var query n` the variation completion; `Except.error ()` is a call that
raises. -/

/-- Substring test on character lists: the needle occurs in some tail. -/
def listContainsSub (n : List Char) : List Char → Bool
  | [] => n.isEmpty
  | c :: t => n.isPrefixOf (c :: t) || listContainsSub n t

/-- Substring test (`needle in hay` on Python strings). -/
def strContainsSub (hay needle : String) : Bool :=
  listContainsSub needle.toList hay.toList

/-- Python `str.split()`: split on whitespace runs, dropping empty pieces. -/
def pyWords (s : String) : List String :=
  ((splitOnPred Char.isWhitespace s.toList).map String.mk).filter (fun w => !(w == ""))

/-- The `multi_part_indicators` list (query_expander.py lines 117-122). -/
def multi_part_indicators (query : String) : List Bool :=
  [strContainsSub query "1." && strContainsSub query "2.",
   strContainsSub query "1)" && strContainsSub query "2)",
   decide (query.toList.count '?' > 1),
   strContainsSub (pyLower query) " and " && decide ((pyWords query).length > 15)]

/-- `re.sub(r'^\d+[\.\)]\s*', '', q)`: drop one leading run of digits
followed by `.` or `)` and trailing whitespace, if present. -/
def dropOrdinalChars (cs : List Char) : List Char :=
  let ds := cs.takeWhile (fun c => c.isDigit)
  if ds.isEmpty then cs
  else
    match cs.drop ds.length with
    | c :: rest =>
      if c = '.' ∨ c = ')' then rest.dropWhile (fun ch => ch.isWhitespace) else cs
    | [] => cs

def stripOrdinal (s : String) : String :=
  String.mk (dropOrdinalChars s.toList)

/-- `content.strip().split('\n')` followed by per-line strip and dropping
empty lines. -/
def parseLines (content : String) : List String :=
  ((pySplitLines (pyStrip content)).map pyStrip).filter (fun q => !(q == ""))

/-- `QueryExpander._decompose_query`: pass-through unless an indicator
fires; on an LLM failure or an empty parse, fall back to `[query]`. -/
def decompose_query (dec : String → Except Unit String) (query : String) :
    List String :=
  if !((multi_part_indicators query).any id) then [query]
  else
    match dec query with
    | .error _ => [query]
    | .ok content =>
      let sub_queries := parseLines content
      let cleaned_queries := (sub_queries.map stripOrdinal).filter (fun q => !(q == ""))
      if cleaned_queries.isEmpty then [query] else cleaned_queries

/-- `QueryExpander._should_expand`. -/
def should_expand (query : String) : Bool :=
  if (pyWords query).length < 5 then false
  else
    let query_lower := pyStrip (pyLower query)
    let simple_patterns :=
      [pyStartsWith query_lower "what is",
       pyStartsWith query_lower "what was",
       pyStartsWith query_lower "when did",
       pyStartsWith query_lower "where is",
       strContainsSub query_lower "yes or no"]
    if simple_patterns.any id then false else true

/-- `QueryExpander._generate_variations`: parse the completion line by line
and truncate to the requested count; a failing call contributes `[]`. -/
def generate_variations (var : String → Nat → Except Unit String)
    (query : String) (num_variations : Nat) : List String :=
  match var query num_variations with
  | .error _ => []
  | .ok content => (parseLines content).take num_variations

/-- One iteration of the multi-part loop of `QueryExpander.expand` (lines
83-91): append the sub-query if new, then its variations filtered against
the snapshot of `all_queries` taken before the extension. -/
def expandMultiStep (var : String → Nat → Except Unit String)
    (num_variations : Nat) (all_queries : List String) (sub_query : String) :
    List String :=
  let aq1 := if all_queries.contains sub_query then all_queries
             else all_queries ++ [sub_query]
  if should_expand sub_query then
    aq1 ++ ((generate_variations var sub_query num_variations).filter
      (fun v => !(aq1.contains v)))
  else aq1

/-- The single-query branch of `QueryExpander.expand` (lines 92-96). -/
def expandSingle (var : String → Nat → Except Unit String) (query : String)
    (num_variations : Nat) : List String :=
  let all_queries := [query]
  if should_expand query then
    all_queries ++ ((generate_variations var query num_variations).filter
      (fun v => !(all_queries.contains v)))
  else all_queries

/-- `QueryExpander.expand`.  Every fallible call inside the `try` block is
already caught at its own boundary (`_decompose_query` and
`_generate_variations` return their fallbacks), so the outer `except` is
unreachable and the function is total. -/
def expand (dec : String → Except Unit String)
    (var : String → Nat → Except Unit String) (query : String)
    (num_variations : Nat) : List String :=
  let all_queries := [query]
  let sub_queries := decompose_query dec query
  if sub_queries.length > 1 then
    sub_queries.foldl (expandMultiStep var num_variations) all_queries
  else
    expandSingle var query num_variations

/-! ### RAG chain response-cache gating (backend/app/rag/chain.py) -/

structure QueryRequest where
  query : String
  ticker : Option String := none
  doc_types : Option (List String) := none
  top_k : Nat := 10
  session_id : Option String := none
deriving DecidableEq, Repr

/-- Python truthiness of `request.session_id`: `None` and `""` are falsy. -/
def truthyStr : Option String → Bool
  | none => false
  | some s => !(s == "")

/-- The response returned to the caller: the cached or freshly computed
payload, plus the `from_cache` flag the cached path adds. -/
structure RespView (α : Type) where
  payload : α
  from_cache : Bool
deriving DecidableEq, Repr

/-- The response-cache behaviour of `RAGChain.process_query` (lines 273-284
and 386-394).  `pipeline ()` abstracts steps 1-10 (expansion, retrieval,
reranking, generation) producing the `response_dict`; the returned flag
records whether the response cache was touched at all.  Both the read and
the write are gated by `settings.ENABLE_RESPONSE_CACHE and not
request.session_id`, two conditions that cannot change between the two
tests within one call. -/
def process_query_cache (enable : Bool) (req : QueryRequest)
    (rc : CacheTable α) (now : Nat) (pipeline : Unit → α) :
    RespView α × CacheTable α × Bool :=
  if enable && !(truthyStr req.session_id) then
    let key := response_key req.query req.ticker req.doc_types req.top_k
    match cacheGet rc key now with
    | (some v, rc1) => (⟨v, true⟩, rc1, true)
    | (none, rc1) =>
      let result := pipeline ()
      let rc2 := cacheSetWith evict_lru rc1 key result now
      (⟨result, false⟩, rc2, true)
  else
    (⟨pipeline (), false⟩, rc, false)

/-! ### Auxiliary definitions used in proofs and concrete witnesses -/

/-- The first-with-strictly-greater fold underlying Python's `max(...)`:
the index kept after walking `xs` starting from champion `b`. -/
def pickFold (f : Nat → ℚ) (b : Nat) (xs : List Nat) : Nat :=
  xs.foldl (fun best i => if f best < f i then i else best) b

def docA : Document := ⟨"alpha", { similarity_score := some 1 }⟩

def docB : Document := ⟨"beta", { similarity_score := some 3 }⟩

def docC : Document := ⟨"gamma", { similarity_score := some 2 }⟩

def docDup : Document := ⟨"dup", { filename := some "f", chunk_id := some "0" }⟩

def msgA : ConversationMessage := ⟨"user", "hello", 0⟩

def msgB : ConversationMessage := ⟨"assistant", "world!", 0⟩

def docX : Document := ⟨"x", {}⟩

def docY : Document := ⟨"y", {}⟩

/-! ### Theorems -/

/-- Claim C5: for every embedding outcome, diversity parameter and list of
documents with `len(documents) ≤ top_k`, `rerank` returns the input list
unchanged and in the same order (in particular the empty list yields the
empty list); no scoring path is entered. -/
theorem rerank_short_circuit (embed : Option ((Nat → ℚ) × (Nat → Nat → ℚ)))
    (lam : ℚ) (documents : List Document) (top_k : Nat)
    (h : documents.length ≤ top_k) :
    rerank embed lam documents top_k = documents := by
  unfold rerank
  cases documents with
  | nil => rfl
  | cons d ds => rw [if_neg (by simp), if_pos h]

/-- Witness for `rerank_short_circuit` at two documents and `top_k = 3`. -/
theorem rerank_short_circuit_witness :
    ([docA, docB] : List Document).length ≤ 3 ∧
    rerank none (3/10) [docA, docB] 3 = [docA, docB] :=
  ⟨by decide, rerank_short_circuit none (3/10) [docA, docB] 3 (by decide)⟩

/-- Claim C2 is false of the code: `_cosine_similarity` divides by the L2
norm with no zero-norm guard, so a zero vector produces a non-finite (NaN)
similarity — modelled as `none` — rather than the similarity `0` the claim
requires (which would be `some (0, d)` with a positive `d`). -/
theorem cosine_zero_norm_not_guarded :
    cosine_similarity [0, 0] [1, 0] = none ∧
    cosine_similarity [1, 0] [0, 0] = none ∧
    l2NormSq [0, 0] = 0 := by
  have h0 : l2NormSq [0, 0] = 0 := by simp [l2NormSq]
  refine ⟨?_, ?_, h0⟩
  · unfold cosine_similarity
    rw [if_pos (Or.inl h0)]
  · unfold cosine_similarity
    rw [if_pos (Or.inr h0)]

/-- Claim C10 as stated is false of the code: the gate is Python truthiness
(`not request.session_id`), so a request carrying the empty-string session
id still reads the response cache — here the read is a miss and bumps the
miss counter, changing the response-cache state. -/
theorem session_empty_string_touches_cache :
    truthyStr (QueryRequest.mk "q" none none 10 (some "")).session_id = false ∧
    (process_query_cache true (QueryRequest.mk "q" none none 10 (some ""))
        (⟨[], 500, 3600, 0, 0⟩ : CacheTable Nat) 0 (fun _ => 0)).2.1.misses = 1 := by
  constructor
  · decide
  · decide

/-- Claim C10 (amended): for every request whose `session_id` is truthy
(present and non-empty), `process_query` neither reads from nor writes to
the response cache: the cache state is returned unchanged, the touched flag
is false, and the answer comes from the pipeline alone. -/
theorem process_query_session_frame {α : Type} (enable : Bool)
    (req : QueryRequest) (rc : CacheTable α) (now : Nat) (pipeline : Unit → α)
    (h : truthyStr req.session_id = true) :
    process_query_cache enable req rc now pipeline = (⟨pipeline (), false⟩, rc, false) := by
  unfold process_query_cache
  simp [h]

/-- Witness for `process_query_session_frame` at a request with session id
`"s1"`. -/
theorem process_query_session_frame_witness :
    truthyStr (QueryRequest.mk "q" none none 10 (some "s1")).session_id = true ∧
    process_query_cache true (QueryRequest.mk "q" none none 10 (some "s1"))
        (⟨[], 500, 3600, 0, 0⟩ : CacheTable Nat) 0 (fun _ => 7)
      = (⟨7, false⟩, (⟨[], 500, 3600, 0, 0⟩ : CacheTable Nat), false) :=
  ⟨by decide,
   process_query_session_frame true (QueryRequest.mk "q" none none 10 (some "s1"))
     (⟨[], 500, 3600, 0, 0⟩ : CacheTable Nat) 0 (fun _ => 7) (by decide)⟩

/-- Claim C6: once a history holds at least two messages, trimming only
drops an oldest-first contiguous prefix (the result is `messages.drop k`
for some `k`), retains at least the last two messages, and drops nothing
at all when the estimated token count `total_chars / 4` is within
`max_tokens`. -/
theorem trim_history_claims (max_tokens : Nat)
    (messages : List ConversationMessage) (h : 2 ≤ messages.length) :
    (∃ k, trim_history max_tokens messages = messages.drop k) ∧
    2 ≤ (trim_history max_tokens messages).length ∧
    ((total_chars messages : ℚ) / 4 ≤ (max_tokens : ℚ) →
      trim_history max_tokens messages = messages) := by
  have hne : messages.isEmpty = false := by
    cases messages with
    | nil => simp at h
    | cons a l => rfl
  unfold trim_history
  rw [hne]
  simp only [Bool.false_eq_true, if_false]
  by_cases hq : (total_chars messages : ℚ) / 4 ≤ (max_tokens : ℚ)
  · rw [if_pos hq]
    exact ⟨⟨0, (messages.drop_zero).symm⟩, h, fun _ => rfl⟩
  · rw [if_neg hq]
    set keep0 := (scanBack (max_tokens * 4)
      ((messages.map (fun m => m.content.length)).reverse) (messages.length - 1) 0).getD
      messages.length with hkeep0
    set kfi := min keep0 (messages.length - 2) with hkfi
    have hk2 : kfi ≤ messages.length - 2 := min_le_right _ _
    by_cases hpos : kfi > 0
    · rw [if_pos hpos]
      refine ⟨⟨kfi, rfl⟩, ?_, fun hc => absurd hc hq⟩
      rw [List.length_drop]
      omega
    · rw [if_neg hpos]
      exact ⟨⟨0, (messages.drop_zero).symm⟩, h, fun hc => absurd hc hq⟩

/-- Witness for `trim_history_claims`: two messages under a zero token
budget. -/
theorem trim_history_claims_witness :
    2 ≤ ([msgA, msgB] : List ConversationMessage).length ∧
    ((∃ k, trim_history 0 [msgA, msgB] = ([msgA, msgB] : List ConversationMessage).drop k) ∧
     2 ≤ (trim_history 0 [msgA, msgB]).length ∧
     ((total_chars [msgA, msgB] : ℚ) / 4 ≤ ((0 : Nat) : ℚ) →
       trim_history 0 [msgA, msgB] = [msgA, msgB])) :=
  ⟨by decide, trim_history_claims 0 [msgA, msgB] (by decide)⟩

/-- Claim C4: when the embedding call raised, `rerank` on more than `top_k`
documents returns the input stably sorted by the pre-existing
`similarity_score` metadata (missing scores count as `0`) in descending
order, truncated to `top_k`; the result has length `top_k` and is
descending in that score, and the failure is not propagated (the function
is total and lands in `_fallback_rerank`). -/
theorem rerank_failure_fallback (lam : ℚ) (documents : List Document)
    (top_k : Nat) (h : top_k < documents.length) :
    rerank none lam documents top_k
      = (documents.mergeSort (fun a b => decide (simScore b ≤ simScore a))).take top_k ∧
    (rerank none lam documents top_k).length = top_k ∧
    (rerank none lam documents top_k).Pairwise (fun a b => simScore b ≤ simScore a) := by
  have hne : documents.isEmpty = false := by
    cases documents with
    | nil => simp at h
    | cons a l => rfl
  have hnle : ¬(documents.length ≤ top_k) := Nat.not_le.mpr h
  have heq : rerank none lam documents top_k
      = (documents.mergeSort (fun a b => decide (simScore b ≤ simScore a))).take top_k := by
    unfold rerank
    rw [if_neg (by simp [hne]), if_neg hnle]
    rfl
  refine ⟨heq, ?_, ?_⟩
  · rw [heq, List.length_take, List.length_mergeSort]
    omega
  · rw [heq]
    have hs : (documents.mergeSort (fun a b => decide (simScore b ≤ simScore a))).Pairwise
        (fun a b => decide (simScore b ≤ simScore a) = true) := by
      apply List.sorted_mergeSort
      · intro a b c hab hbc
        simp only [decide_eq_true_eq] at *
        exact le_trans hbc hab
      · intro a b
        simp only [Bool.or_eq_true, decide_eq_true_eq]
        exact le_total (simScore b) (simScore a)
    exact List.Pairwise.sublist (List.take_sublist _ _)
      (hs.imp (fun hab => by simpa using hab))

/-- Witness for `rerank_failure_fallback` at three scored documents and
`top_k = 2`. -/
theorem rerank_failure_fallback_witness :
    2 < ([docA, docB, docC] : List Document).length ∧
    (rerank none (3/10) [docA, docB, docC] 2
        = (([docA, docB, docC] : List Document).mergeSort
            (fun a b => decide (simScore b ≤ simScore a))).take 2 ∧
     (rerank none (3/10) [docA, docB, docC] 2).length = 2 ∧
     (rerank none (3/10) [docA, docB, docC] 2).Pairwise
        (fun a b => simScore b ≤ simScore a)) :=
  ⟨by decide, rerank_failure_fallback (3/10) [docA, docB, docC] 2 (by decide)⟩

/-- Replacing the matching entry in place leaves the key findable with the
new entry. -/
theorem find?_map_replace (k : String) (e : CacheEntry V) :
    ∀ c : List (String × CacheEntry V),
      (c.find? (fun p => p.1 == k)).isSome →
      (c.map (fun p => if p.1 == k then (k, e) else p)).find? (fun p => p.1 == k)
        = some (k, e)
  | [], h => by simp at h
  | q :: qs, h => by
    cases hq : (q.1 == k) with
    | true =>
      simp only [List.map_cons, if_pos hq]
      exact List.find?_cons_of_pos _ (by simp)
    | false =>
      have h' : (qs.find? (fun p => p.1 == k)).isSome := by
        rw [List.find?_cons_of_neg _ (by simp [hq])] at h
        exact h
      simp only [List.map_cons, if_neg (by simp [hq] : ¬(q.1 == k) = true)]
      rw [List.find?_cons_of_neg _ (by simp [hq])]
      exact find?_map_replace k e qs h'

/-- After `dictInsert`, looking the key up finds exactly the new entry. -/
theorem find?_dictInsert (c : List (String × CacheEntry V)) (k : String)
    (e : CacheEntry V) :
    (dictInsert c k e).find? (fun p => p.1 == k) = some (k, e) := by
  unfold dictInsert
  by_cases hp : (c.find? (fun p => p.1 == k)).isSome
  · rw [if_pos hp]
    exact find?_map_replace k e c hp
  · rw [if_neg hp]
    have hnone : c.find? (fun p => p.1 == k) = none := by
      cases hc : c.find? (fun p => p.1 == k) with
      | none => rfl
      | some a => rw [hc] at hp; simp at hp
    rw [List.find?_append, hnone, Option.none_or]
    exact List.find?_cons_of_pos _ (by simp)

/-- Claim C8: with the document cache enabled, a hit returns the first
`top_k` elements of the cached list without calling VectorSearch — also
when the cached list is shorter than `top_k` (no hypothesis on its length);
a miss calls VectorSearch, returns the scored documents, and writes the
full unsliced scored list into the cache under the normalized key. -/
theorem retrieve_cache_claims
    (search : Nat → Option String → List (Document × ℚ))
    (dc : CacheTable (List Document)) (query : String) (ticker : Option String)
    (doc_types : Option (List String)) (top_k now : Nat) :
    (∀ cached, (cacheGet dc (document_key query ticker doc_types) now).1 = some cached →
      retrieve true search dc query ticker doc_types top_k now
        = (cached.take top_k, (cacheGet dc (document_key query ticker doc_types) now).2,
           false)) ∧
    ((cacheGet dc (document_key query ticker doc_types) now).1 = none →
      (retrieve true search dc query ticker doc_types top_k now).2.2 = true ∧
      (retrieve true search dc query ticker doc_types top_k now).1
        = attachScores (search top_k (build_filter_expression ticker doc_types)) ∧
      ((retrieve true search dc query ticker doc_types top_k now).2.1.cache.find?
          (fun p => p.1 == document_key query ticker doc_types)).map (fun p => p.2.value)
        = some (attachScores (search top_k (build_filter_expression ticker doc_types)))) := by
  have hsplit : cacheGet dc (document_key query ticker doc_types) now
      = ((cacheGet dc (document_key query ticker doc_types) now).1,
         (cacheGet dc (document_key query ticker doc_types) now).2) := rfl
  constructor
  · intro cached hc
    unfold retrieve
    rw [if_pos rfl, hsplit, hc]
  · intro hc
    have hr : retrieve true search dc query ticker doc_types top_k now
        = (attachScores (search top_k (build_filter_expression ticker doc_types)),
           cacheSetWith evict_oldest (cacheGet dc (document_key query ticker doc_types) now).2
             (document_key query ticker doc_types)
             (attachScores (search top_k (build_filter_expression ticker doc_types))) now,
           true) := by
      unfold retrieve
      rw [if_pos rfl, hsplit, hc]
      rfl
    refine ⟨by rw [hr], by rw [hr], ?_⟩
    rw [hr]
    show ((cacheSetWith evict_oldest _ _ _ _).cache.find? _).map _ = _
    unfold cacheSetWith
    rw [find?_dictInsert]
    rfl

/-- Witness for `retrieve_cache_claims`: a hit whose cached list (one
document) is shorter than the requested `top_k = 3`, and a miss on an empty
cache. -/
theorem retrieve_cache_claims_witness :
    ((cacheGet (⟨[("q||", ⟨[docX], 0, 100, 0⟩)], 200, 7200, 0, 0⟩ : CacheTable (List Document))
        (document_key "Q" none none) 0).1 = some [docX] ∧
     retrieve true (fun _ _ => [(docY, 1)])
        (⟨[("q||", ⟨[docX], 0, 100, 0⟩)], 200, 7200, 0, 0⟩ : CacheTable (List Document))
        "Q" none none 3 0
      = (([docX] : List Document).take 3,
         (cacheGet (⟨[("q||", ⟨[docX], 0, 100, 0⟩)], 200, 7200, 0, 0⟩ : CacheTable (List Document))
            (document_key "Q" none none) 0).2, false)) ∧
    ((cacheGet (⟨[], 200, 7200, 0, 0⟩ : CacheTable (List Document))
        (document_key "Q" none none) 0).1 = none ∧
     ((retrieve true (fun _ _ => [(docY, 1)])
          (⟨[], 200, 7200, 0, 0⟩ : CacheTable (List Document)) "Q" none none 3 0).2.2 = true ∧
      (retrieve true (fun _ _ => [(docY, 1)])
          (⟨[], 200, 7200, 0, 0⟩ : CacheTable (List Document)) "Q" none none 3 0).1
        = attachScores ((fun (_ : Nat) (_ : Option String) => [(docY, (1 : ℚ))]) 3
            (build_filter_expression none none)) ∧
      ((retrieve true (fun _ _ => [(docY, 1)])
          (⟨[], 200, 7200, 0, 0⟩ : CacheTable (List Document)) "Q" none none 3 0).2.1.cache.find?
          (fun p => p.1 == document_key "Q" none none)).map (fun p => p.2.value)
        = some (attachScores ((fun (_ : Nat) (_ : Option String) => [(docY, (1 : ℚ))]) 3
            (build_filter_expression none none))))) :=
  ⟨⟨by decide,
    (retrieve_cache_claims (fun _ _ => [(docY, 1)])
      (⟨[("q||", ⟨[docX], 0, 100, 0⟩)], 200, 7200, 0, 0⟩ : CacheTable (List Document))
      "Q" none none 3 0).1 [docX] (by decide)⟩,
   ⟨by decide,
    (retrieve_cache_claims (fun _ _ => [(docY, 1)])
      (⟨[], 200, 7200, 0, 0⟩ : CacheTable (List Document))
      "Q" none none 3 0).2 (by decide)⟩⟩

/-- Deleting a list of keys never lengthens the dict. -/
theorem delKeys_length_le :
    ∀ (ks : List String) (c : List (String × CacheEntry V)),
      (delKeys c ks).length ≤ c.length
  | [], _ => le_refl _
  | k :: ks, c => by
    have hstep : delKeys c (k :: ks) = delKeys (c.filter (fun p => !(p.1 == k))) ks := rfl
    rw [hstep]
    exact le_trans (delKeys_length_le ks _) (List.length_filter_le _ _)

/-- Deleting a key that is present strictly shortens the dict. -/
theorem filter_out_key_length_lt (k : String) :
    ∀ c : List (String × CacheEntry V), k ∈ c.map (fun p => p.1) →
      (c.filter (fun p => !(p.1 == k))).length < c.length
  | [], h => by simp at h
  | q :: qs, h => by
    by_cases hq : (q.1 == k) = true
    · have hfc : (q :: qs).filter (fun p => !(p.1 == k))
          = qs.filter (fun p => !(p.1 == k)) := by
        simp [List.filter_cons, hq]
      rw [hfc]
      exact lt_of_le_of_lt (List.length_filter_le _ _) (by simp)
    · have hk : k ∈ qs.map (fun p => p.1) := by
        rcases List.mem_cons.1 h with h1 | h1
        · exact absurd (by simp [h1]) hq
        · exact h1
      have hfc : (q :: qs).filter (fun p => !(p.1 == k))
          = q :: qs.filter (fun p => !(p.1 == k)) := by
        simp [List.filter_cons, hq]
      rw [hfc]
      simpa using Nat.succ_lt_succ (filter_out_key_length_lt k qs hk)

/-- Deleting a present key followed by further keys strictly shortens the
dict. -/
theorem delKeys_cons_lt (c : List (String × CacheEntry V)) (k : String)
    (ks : List String) (hk : k ∈ c.map (fun p => p.1)) :
    (delKeys c (k :: ks)).length < c.length := by
  have hstep : delKeys c (k :: ks) = delKeys (c.filter (fun p => !(p.1 == k))) ks := rfl
  rw [hstep]
  exact lt_of_le_of_lt (delKeys_length_le ks _) (filter_out_key_length_lt k c hk)

/-- Evicting (under any key ordering) from a non-empty table strictly
shrinks it: at least one existing key is deleted. -/
theorem evictTake_shrinks (t : CacheTable V) (le : String → String → Bool)
    (h : t.cache ≠ []) :
    (delKeys t.cache (((keysOf t).mergeSort le).take (num_to_remove t))).length
      < t.cache.length := by
  cases hs : (keysOf t).mergeSort le with
  | nil =>
    exfalso
    have hl : ((keysOf t).mergeSort le).length = (keysOf t).length :=
      List.length_mergeSort (keysOf t)
    rw [hs] at hl
    have : (keysOf t).length = t.cache.length := by
      unfold keysOf
      exact List.length_map _ _
    cases hc : t.cache with
    | nil => exact h hc
    | cons a l => rw [hc] at this; simp [this] at hl
  | cons k ks =>
    obtain ⟨m, hm⟩ : ∃ m, num_to_remove t = m + 1 := by
      have : 1 ≤ num_to_remove t := le_max_left _ _
      exact ⟨num_to_remove t - 1, by omega⟩
    rw [hm, List.take_succ_cons]
    apply delKeys_cons_lt
    have hmem : k ∈ (keysOf t).mergeSort le := by
      rw [hs]
      exact List.mem_cons_self k ks
    exact List.mem_mergeSort.1 hmem

theorem evict_oldest_shrinks (t : CacheTable V) (h : t.cache ≠ []) :
    (evict_oldest t).cache.length < t.cache.length := by
  unfold evict_oldest
  exact evictTake_shrinks t _ h

theorem evict_lru_shrinks (t : CacheTable V) (h : t.cache ≠ []) :
    (evict_lru t).cache.length < t.cache.length := by
  unfold evict_lru
  exact evictTake_shrinks t _ h

/-- Inserting adds at most one entry. -/
theorem dictInsert_length_le (c : List (String × CacheEntry V)) (k : String)
    (e : CacheEntry V) : (dictInsert c k e).length ≤ c.length + 1 := by
  unfold dictInsert
  by_cases hp : (c.find? (fun p => p.1 == k)).isSome
  · rw [if_pos hp, List.length_map]
    omega
  · rw [if_neg hp, List.length_append]
    simp

/-- One `get` or `set` preserves `size ≤ max_size` (given `max_size ≥ 1`)
and leaves `max_size` unchanged, for any eviction policy that strictly
shrinks a non-empty table. -/
theorem applyOp_preserves (evict : CacheTable V → CacheTable V)
    (hev : ∀ t : CacheTable V, t.cache ≠ [] → (evict t).cache.length < t.cache.length)
    (hevm : ∀ t : CacheTable V, (evict t).max_size = t.max_size)
    (t : CacheTable V) (op : CacheOp V) (h1 : 1 ≤ t.max_size)
    (h2 : t.cache.length ≤ t.max_size) :
    (applyOpWith evict t op).cache.length ≤ t.max_size ∧
    (applyOpWith evict t op).max_size = t.max_size := by
  cases op with
  | get k now =>
    show ((cacheGet t k now).2.cache.length ≤ t.max_size) ∧
      ((cacheGet t k now).2.max_size = t.max_size)
    unfold cacheGet
    split
    · split
      · exact ⟨le_trans (List.length_filter_le _ _) h2, rfl⟩
      · refine ⟨?_, rfl⟩
        rw [List.length_map]
        exact h2
    · exact ⟨h2, rfl⟩
  | set k v now =>
    show ((cacheSetWith evict t k v now).cache.length ≤ t.max_size) ∧
      ((cacheSetWith evict t k v now).max_size = t.max_size)
    unfold cacheSetWith
    by_cases hcap : t.cache.length ≥ t.max_size
    · rw [if_pos hcap]
      have hlen : t.cache.length = t.max_size := le_antisymm h2 hcap
      have hne : t.cache ≠ [] := by
        intro hnil
        rw [hnil] at hlen
        simp at hlen
        omega
      have hshrink := hev t hne
      refine ⟨?_, hevm t⟩
      calc (dictInsert (evict t).cache k ⟨v, now, (evict t).ttl, 0⟩).length
          ≤ (evict t).cache.length + 1 := dictInsert_length_le _ _ _
        _ ≤ t.cache.length := by omega
        _ ≤ t.max_size := h2
    · rw [if_neg hcap]
      refine ⟨?_, rfl⟩
      calc (dictInsert t.cache k ⟨v, now, t.ttl, 0⟩).length
          ≤ t.cache.length + 1 := dictInsert_length_le _ _ _
        _ ≤ t.max_size := by omega

/-- Any sequence of `get`/`set` operations keeps `size ≤ max_size`. -/
theorem foldOps_length_le (evict : CacheTable V → CacheTable V)
    (hev : ∀ t : CacheTable V, t.cache ≠ [] → (evict t).cache.length < t.cache.length)
    (hevm : ∀ t : CacheTable V, (evict t).max_size = t.max_size) :
    ∀ (ops : List (CacheOp V)) (t : CacheTable V), 1 ≤ t.max_size →
      t.cache.length ≤ t.max_size →
      (ops.foldl (applyOpWith evict) t).cache.length ≤ t.max_size ∧
      (ops.foldl (applyOpWith evict) t).max_size = t.max_size
  | [], t, _, h2 => ⟨h2, rfl⟩
  | op :: ops, t, h1, h2 => by
    have hstep := applyOp_preserves evict hev hevm t op h1 h2
    have hrec := foldOps_length_le evict hev hevm ops (applyOpWith evict t op)
      (by rw [hstep.2]; exact h1) (by rw [hstep.2]; exact hstep.1)
    refine ⟨?_, hrec.2.trans hstep.2⟩
    have := hrec.1
    rw [hstep.2] at this
    exact this

/-- Claim C3: for each of the three caches — embedding (values `List ℚ`,
oldest-first eviction), document (values `List Document`, oldest-first
eviction), and response (any value type, `(hit_count, created_at)`
eviction) — starting from any state with `size ≤ max_size`, every sequence
of `get`/`set` operations keeps the number of stored entries at most
`max_size`; in particular it holds immediately after any `set` returns.
The system instantiates `max_size` at 1000/200/500 (`CacheManager`), so
the `1 ≤ max_size` hypothesis is satisfied by all three caches. -/
theorem cache_size_never_exceeds_max :
    (∀ (t : CacheTable (List ℚ)) (ops : List (CacheOp (List ℚ))),
        1 ≤ t.max_size → t.cache.length ≤ t.max_size →
        (ops.foldl (applyOpWith evict_oldest) t).cache.length ≤ t.max_size) ∧
    (∀ (t : CacheTable (List Document)) (ops : List (CacheOp (List Document))),
        1 ≤ t.max_size → t.cache.length ≤ t.max_size →
        (ops.foldl (applyOpWith evict_oldest) t).cache.length ≤ t.max_size) ∧
    (∀ (α : Type) (t : CacheTable α) (ops : List (CacheOp α)),
        1 ≤ t.max_size → t.cache.length ≤ t.max_size →
        (ops.foldl (applyOpWith evict_lru) t).cache.length ≤ t.max_size) :=
  ⟨fun t ops h1 h2 =>
      (foldOps_length_le evict_oldest evict_oldest_shrinks (fun _ => rfl) ops t h1 h2).1,
   fun t ops h1 h2 =>
      (foldOps_length_le evict_oldest evict_oldest_shrinks (fun _ => rfl) ops t h1 h2).1,
   fun _ t ops h1 h2 =>
      (foldOps_length_le evict_lru evict_lru_shrinks (fun _ => rfl) ops t h1 h2).1⟩

/-- Witness for `cache_size_never_exceeds_max`: a capacity-1 table absorbs
two `set`s and a `get` without exceeding its bound, under each policy. -/
theorem cache_size_never_exceeds_max_witness :
    (1 ≤ (⟨[], 1, 10, 0, 0⟩ : CacheTable (List ℚ)).max_size ∧
     (([CacheOp.set "a" [0] 0, CacheOp.set "b" [1] 1, CacheOp.get "a" 2]).foldl
        (applyOpWith evict_oldest) (⟨[], 1, 10, 0, 0⟩ : CacheTable (List ℚ))).cache.length
       ≤ (⟨[], 1, 10, 0, 0⟩ : CacheTable (List ℚ)).max_size) ∧
    (1 ≤ (⟨[], 1, 10, 0, 0⟩ : CacheTable (List Document)).max_size ∧
     (([CacheOp.set "a" [docX] 0, CacheOp.set "b" [docY] 1]).foldl
        (applyOpWith evict_oldest) (⟨[], 1, 10, 0, 0⟩ : CacheTable (List Document))).cache.length
       ≤ (⟨[], 1, 10, 0, 0⟩ : CacheTable (List Document)).max_size) ∧
    (1 ≤ (⟨[], 1, 10, 0, 0⟩ : CacheTable Nat).max_size ∧
     (([CacheOp.set "a" 5 0, CacheOp.set "b" 6 1]).foldl
        (applyOpWith evict_lru) (⟨[], 1, 10, 0, 0⟩ : CacheTable Nat)).cache.length
       ≤ (⟨[], 1, 10, 0, 0⟩ : CacheTable Nat).max_size) :=
  ⟨⟨by decide,
    cache_size_never_exceeds_max.1 ⟨[], 1, 10, 0, 0⟩
      [CacheOp.set "a" [0] 0, CacheOp.set "b" [1] 1, CacheOp.get "a" 2]
      (by decide) (by decide)⟩,
   ⟨by decide,
    cache_size_never_exceeds_max.2.1 ⟨[], 1, 10, 0, 0⟩
      [CacheOp.set "a" [docX] 0, CacheOp.set "b" [docY] 1] (by decide) (by decide)⟩,
   ⟨by decide,
    cache_size_never_exceeds_max.2.2 Nat ⟨[], 1, 10, 0, 0⟩
      [CacheOp.set "a" 5 0, CacheOp.set "b" 6 1] (by decide) (by decide)⟩⟩

/-- The starting value never exceeds a running `max` fold. -/
theorem foldlMax_init_le (f : Nat → ℚ) :
    ∀ (xs : List Nat) (a : ℚ), a ≤ xs.foldl (fun acc i => max acc (f i)) a
  | [], a => le_refl a
  | x :: xs, a =>
    le_trans (le_max_left a (f x)) (foldlMax_init_le f xs (max a (f x)))

/-- The current champion's score is bounded by the running maximum. -/
theorem self_le_listMaxQ (f : Nat → ℚ) (b : Nat) (xs : List Nat) :
    f b ≤ listMaxQ f b xs :=
  foldlMax_init_le f xs (f b)

/-- Python's `max` over `(index, score)` pairs returns the pair of the
index kept by the strictly-greater fold, together with its score. -/
theorem pyMaxSnd_shape (f : Nat → ℚ) :
    ∀ (xs : List Nat) (b : Nat),
      pyMaxSnd (b, f b) (xs.map (fun i => (i, f i)))
        = (pickFold f b xs, f (pickFold f b xs))
  | [], _ => rfl
  | x :: xs, b => by
    have hstep : pyMaxSnd (b, f b) ((x :: xs).map (fun i => (i, f i)))
        = pyMaxSnd (if f b < f x then (x, f x) else (b, f b))
            (xs.map (fun i => (i, f i))) := rfl
    rw [hstep]
    by_cases hbx : f b < f x
    · have hp : pickFold f b (x :: xs) = pickFold f x xs := by
        unfold pickFold
        rw [List.foldl_cons, if_pos hbx]
      rw [if_pos hbx, hp]
      exact pyMaxSnd_shape f xs x
    · have hp : pickFold f b (x :: xs) = pickFold f b xs := by
        unfold pickFold
        rw [List.foldl_cons, if_neg hbx]
      rw [if_neg hbx, hp]
      exact pyMaxSnd_shape f xs b

theorem pickFold_cons (f : Nat → ℚ) (b x : Nat) (xs : List Nat) :
    pickFold f b (x :: xs) = pickFold f (if f b < f x then x else b) xs := by
  unfold pickFold
  rw [List.foldl_cons]

theorem listMaxQ_cons (f : Nat → ℚ) (b x : Nat) (xs : List Nat) :
    listMaxQ f b (x :: xs) = listMaxQ f (if f b < f x then x else b) xs := by
  unfold listMaxQ
  rw [List.foldl_cons]
  congr 1
  by_cases hbx : f b < f x
  · rw [if_pos hbx, max_eq_right (le_of_lt hbx)]
  · rw [if_neg hbx, max_eq_left (not_lt.mp hbx)]

/-- `find?` over a cons whose head fails the (explicitly given)
predicate. -/
theorem find?_cons_neg' {α : Type} (p : α → Bool) (a : α) (l : List α)
    (h : p a = false) : (a :: l).find? p = l.find? p :=
  List.find?_cons_of_neg _ (by simp [h])

/-- `find?` over a cons whose head satisfies the (explicitly given)
predicate. -/
theorem find?_cons_pos' {α : Type} (p : α → Bool) (a : α) (l : List α)
    (h : p a = true) : (a :: l).find? p = some a :=
  List.find?_cons_of_pos _ h

/-- The index kept by the strictly-greater fold is exactly the
first-encountered index attaining the maximum score — Python's `max`
tie-break is "first wins". -/
theorem find?_first_max (f : Nat → ℚ) :
    ∀ (xs : List Nat) (b : Nat),
      (b :: xs).find? (fun i => decide (f i = listMaxQ f b xs))
        = some (pickFold f b xs)
  | [], b => by
    simp [listMaxQ, pickFold, List.find?]
  | x :: xs, b => by
    by_cases hbx : f b < f x
    · have hM : listMaxQ f b (x :: xs) = listMaxQ f x xs := by
        rw [listMaxQ_cons, if_pos hbx]
      have hpick : pickFold f b (x :: xs) = pickFold f x xs := by
        rw [pickFold_cons, if_pos hbx]
      have hbne : (fun i => decide (f i = listMaxQ f b (x :: xs))) b = false := by
        simp only [decide_eq_false_iff_not, hM]
        intro heq
        exact absurd hbx (not_lt.mpr (heq ▸ self_le_listMaxQ f x xs))
      rw [find?_cons_neg' (fun i => decide (f i = listMaxQ f b (x :: xs))) b
        (x :: xs) hbne, hpick]
      simp only [hM]
      exact find?_first_max f xs x
    · have hM : listMaxQ f b (x :: xs) = listMaxQ f b xs := by
        rw [listMaxQ_cons, if_neg hbx]
      have hpick : pickFold f b (x :: xs) = pickFold f b xs := by
        rw [pickFold_cons, if_neg hbx]
      have IH := find?_first_max f xs b
      rw [hpick]
      simp only [hM]
      by_cases hb : f b = listMaxQ f b xs
      · rw [find?_cons_pos' (fun i => decide (f i = listMaxQ f b xs)) b
          (x :: xs) (by simp [hb])]
        rw [← IH, find?_cons_pos' (fun i => decide (f i = listMaxQ f b xs)) b
          xs (by simp [hb])]
      · have hx : ¬(f x = listMaxQ f b xs) := by
          intro hxeq
          exact hb (le_antisymm (self_le_listMaxQ f b xs) (hxeq ▸ not_lt.mp hbx))
        rw [find?_cons_neg' (fun i => decide (f i = listMaxQ f b xs)) b
          (x :: xs) (by simp [hb]),
          find?_cons_neg' (fun i => decide (f i = listMaxQ f b xs)) x
          xs (by simp [hx])]
        rw [find?_cons_neg' (fun i => decide (f i = listMaxQ f b xs)) b
          xs (by simp [hb])] at IH
        exact IH

/-- The source loop and the spec-side greedy loop coincide from any
intermediate state. -/
theorem mmrGo_eq_specSelect (lam : ℚ) (qsim : Nat → ℚ) (dsim : Nat → Nat → ℚ) :
    ∀ (fuel : Nat) (selected remaining : List Nat),
      mmrGo lam qsim dsim fuel selected remaining
        = specSelect lam qsim dsim fuel selected remaining
  | 0, selected, remaining => by cases remaining <;> rfl
  | _ + 1, _, [] => rfl
  | fuel + 1, selected, r :: rs => by
    have hfind := find?_first_max (mmrScore lam qsim dsim selected) rs r
    have hfa : firstArgmax (mmrScore lam qsim dsim selected) (r :: rs)
        = some (pickFold (mmrScore lam qsim dsim selected) r rs) := hfind
    have hshape := pyMaxSnd_shape (mmrScore lam qsim dsim selected) rs r
    have hgo : mmrGo lam qsim dsim (fuel + 1) selected (r :: rs)
        = mmrGo lam qsim dsim fuel
            (selected ++ [(pyMaxSnd (r, mmrScore lam qsim dsim selected r)
              (rs.map (fun idx => (idx, mmrScore lam qsim dsim selected idx)))).1])
            ((r :: rs).erase (pyMaxSnd (r, mmrScore lam qsim dsim selected r)
              (rs.map (fun idx => (idx, mmrScore lam qsim dsim selected idx)))).1) := rfl
    have hspec : specSelect lam qsim dsim (fuel + 1) selected (r :: rs)
        = specSelect lam qsim dsim fuel
            (selected ++ [pickFold (mmrScore lam qsim dsim selected) r rs])
            ((r :: rs).erase (pickFold (mmrScore lam qsim dsim selected) r rs)) := by
      conv_lhs => rw [specSelect]
      rw [hfa]
    rw [hgo, hspec, hshape]
    exact mmrGo_eq_specSelect lam qsim dsim fuel _ _

/-- Claim C1: on more than `top_k` documents with successful embedding
calls, `rerank` returns exactly the greedy MMR selection described by the
spec: starting from an empty selection, `top_k` times score each unselected
index by `λ·relevance − (1−λ)·(max similarity to the already selected, 0
when none)`, pick the maximal score with ties broken by the
first-encountered index in iteration order, and append it; the output lists
the documents in selection order, and — both sides being functions of the
similarities, `λ` and the document order alone — the selection is
deterministic. -/
theorem rerank_matches_greedy_mmr (lam : ℚ) (qsim : Nat → ℚ)
    (dsim : Nat → Nat → ℚ) (documents : List Document) (top_k : Nat)
    (h : top_k < documents.length) :
    rerank (some (qsim, dsim)) lam documents top_k
      = mmrGreedyRerank lam qsim dsim documents top_k := by
  have hne : documents.isEmpty = false := by
    cases documents with
    | nil => simp at h
    | cons a l => rfl
  have hnle : ¬(documents.length ≤ top_k) := Nat.not_le.mpr h
  unfold rerank mmrGreedyRerank
  rw [if_neg (by simp [hne]), if_neg hnle, min_eq_left (le_of_lt h)]
  show List.filterMap (fun i => documents[i]?)
      (mmrGo lam qsim dsim top_k [] (List.range documents.length))
    = List.filterMap (fun i => documents[i]?)
      (specSelect lam qsim dsim top_k [] (List.range documents.length))
  rw [mmrGo_eq_specSelect]

/-- Witness for `rerank_matches_greedy_mmr` at three documents,
`top_k = 2`, `λ = 3/10`. -/
theorem rerank_matches_greedy_mmr_witness :
    2 < ([docX, docY, docA] : List Document).length ∧
    rerank (some ((fun i => (i : ℚ)), (fun i j => ((i * j : Nat) : ℚ)))) (3/10)
        [docX, docY, docA] 2
      = mmrGreedyRerank (3/10) (fun i => (i : ℚ)) (fun i j => ((i * j : Nat) : ℚ))
          [docX, docY, docA] 2 :=
  ⟨by decide,
   rerank_matches_greedy_mmr (3/10) (fun i => (i : ℚ))
     (fun i j => ((i * j : Nat) : ℚ)) [docX, docY, docA] 2 (by decide)⟩

/-- `firstSeen` over an appended list continues the fold from the left
part's result. -/
theorem firstSeen_append (ks ls : List String) :
    firstSeen (ks ++ ls)
      = ls.foldl (fun acc k => if k ∈ acc then acc else acc ++ [k]) (firstSeen ks) := by
  unfold firstSeen
  rw [List.foldl_append]

/-- `firstSeen` after one more key. -/
theorem firstSeen_snoc (ks : List String) (k : String) :
    firstSeen (ks ++ [k])
      = if k ∈ firstSeen ks then firstSeen ks else firstSeen ks ++ [k] := by
  rw [firstSeen_append]
  rfl

/-- The first-seen fold only ever appends to its accumulator. -/
theorem foldl_firstSeen_extends :
    ∀ (ls acc : List String),
      ∃ t, ls.foldl (fun acc k => if k ∈ acc then acc else acc ++ [k]) acc = acc ++ t
  | [], acc => ⟨[], (List.append_nil acc).symm⟩
  | l :: ls, acc => by
    by_cases hl : l ∈ acc
    · obtain ⟨t, ht⟩ := foldl_firstSeen_extends ls acc
      refine ⟨t, ?_⟩
      rw [List.foldl_cons, if_pos hl, ht]
    · obtain ⟨t, ht⟩ := foldl_firstSeen_extends ls (acc ++ [l])
      refine ⟨[l] ++ t, ?_⟩
      rw [List.foldl_cons, if_neg hl, ht, List.append_assoc]

/-- Extending the processed keys only appends new unique keys at the end. -/
theorem firstSeen_extends (ks ls : List String) :
    ∃ t, firstSeen (ks ++ ls) = firstSeen ks ++ t := by
  rw [firstSeen_append]
  exact foldl_firstSeen_extends ls _

/-- A key already seen keeps its first-seen rank under any extension. -/
theorem firstSeen_indexOf_stable (ks ls : List String) (k : String)
    (hk : k ∈ firstSeen ks) :
    (firstSeen (ks ++ ls)).indexOf k = (firstSeen ks).indexOf k := by
  obtain ⟨t, ht⟩ := firstSeen_extends ks ls
  rw [ht]
  exact List.indexOf_append_of_mem hk

/-- The rank of a freshly appended key is the previous length. -/
theorem indexOf_snoc_self (l : List String) (k : String) (hk : k ∉ l) :
    (l ++ [k]).indexOf k = l.length := by
  rw [List.indexOf_append_of_not_mem hk, List.indexOf_cons_self]
  omega

/-- The invariant step and emitted block of `format_context_go`: given that
the tracker faithfully records the keys of `pre` in first-seen order, the
emitted blocks number every document by its first-seen rank among all keys
seen by the end of the pass. -/
theorem format_go_spec :
    ∀ (rest : List Document) (t : CitationTracker) (pre : List String),
      t.sources.length = (firstSeen pre).length →
      (∀ k, t.source_map.find? (fun p => p.1 == k)
          = if k ∈ firstSeen pre then some (k, (firstSeen pre).indexOf k + 1)
            else none) →
      (format_context_go t rest).2
        = rest.map (fun d =>
            "[Source " ++ toString
              ((firstSeen (pre ++ rest.map create_doc_key)).indexOf
                (create_doc_key d) + 1) ++ "] " ++ d.page_content)
  | [], t, pre, _, _ => by simp [format_context_go]
  | d :: ds, t, pre, hlen, hfind => by
    have happ : pre ++ (d :: ds).map create_doc_key
        = (pre ++ [create_doc_key d]) ++ ds.map create_doc_key := by
      rw [List.map_cons, List.append_assoc]
      rfl
    by_cases hk : create_doc_key d ∈ firstSeen pre
    · -- known key: the tracker is unchanged and the id is the old rank
      have hfs : firstSeen (pre ++ [create_doc_key d]) = firstSeen pre := by
        rw [firstSeen_snoc, if_pos hk]
      have hadd : add_document t d
          = ((firstSeen pre).indexOf (create_doc_key d) + 1, t) := by
        show (match t.source_map.find? (fun p => p.1 == create_doc_key d) with
          | some p => (p.2, t)
          | none => (t.sources.length + 1,
              (⟨t.sources ++ [d],
                t.source_map ++ [(create_doc_key d, t.sources.length + 1)]⟩ :
                CitationTracker))) = _
        rw [hfind (create_doc_key d), if_pos hk]
      have hgo : format_context_go t (d :: ds)
          = ((format_context_go t ds).1,
             ("[Source " ++ toString ((firstSeen pre).indexOf (create_doc_key d) + 1)
               ++ "] " ++ d.page_content) :: (format_context_go t ds).2) := by
        show (let r := add_document t d
              let rest := format_context_go r.2 ds
              (rest.1, ("[Source " ++ toString r.1 ++ "] " ++ d.page_content)
                :: rest.2)) = _
        rw [hadd]
      have hIH := format_go_spec ds t (pre ++ [create_doc_key d])
        (by rw [hfs]; exact hlen) (by rw [hfs]; exact hfind)
      rw [hgo, happ, List.map_cons]
      have hid : (firstSeen ((pre ++ [create_doc_key d]) ++ ds.map create_doc_key)).indexOf
          (create_doc_key d) = (firstSeen pre).indexOf (create_doc_key d) := by
        rw [firstSeen_indexOf_stable _ _ _ (by rw [hfs]; exact hk), hfs]
      rw [hIH, hid]
    · -- fresh key: the tracker gains the document at rank `len + 1`
      have hfs : firstSeen (pre ++ [create_doc_key d])
          = firstSeen pre ++ [create_doc_key d] := by
        rw [firstSeen_snoc, if_neg hk]
      have hadd : add_document t d
          = (t.sources.length + 1,
             ⟨t.sources ++ [d],
              t.source_map ++ [(create_doc_key d, t.sources.length + 1)]⟩) := by
        show (match t.source_map.find? (fun p => p.1 == create_doc_key d) with
          | some p => (p.2, t)
          | none => (t.sources.length + 1,
              (⟨t.sources ++ [d],
                t.source_map ++ [(create_doc_key d, t.sources.length + 1)]⟩ :
                CitationTracker))) = _
        rw [hfind (create_doc_key d), if_neg hk]
      have hlen' : (t.sources ++ [d]).length
          = (firstSeen (pre ++ [create_doc_key d])).length := by
        rw [hfs]
        simp [hlen]
      have hfind' : ∀ k,
          (t.source_map ++ [(create_doc_key d, t.sources.length + 1)]).find?
              (fun p => p.1 == k)
            = if k ∈ firstSeen (pre ++ [create_doc_key d])
              then some (k, (firstSeen (pre ++ [create_doc_key d])).indexOf k + 1)
              else none := by
        intro k
        rw [List.find?_append, hfind k, hfs]
        by_cases hkfs : k ∈ firstSeen pre
        · rw [if_pos hkfs, if_pos (List.mem_append_left _ hkfs), Option.or_some]
          rw [List.indexOf_append_of_mem hkfs]
        · rw [if_neg hkfs, Option.none_or]
          by_cases hkd : k = create_doc_key d
          · rw [if_pos (by rw [hkd]; exact List.mem_append_right _ (by simp))]
            rw [hkd, indexOf_snoc_self _ _ hk, ← hlen]
            rw [List.find?_cons_of_pos _ (by simp [hkd])]
          · rw [List.find?_cons_of_neg _ (by simp; exact fun hc => hkd hc.symm)]
            rw [if_neg ?_]
            · rfl
            · intro hmem
              rcases List.mem_append.1 hmem with hc | hc
              · exact hkfs hc
              · exact hkd (by simpa using hc)
      have hgo : format_context_go t (d :: ds)
          = ((format_context_go
                (⟨t.sources ++ [d],
                  t.source_map ++ [(create_doc_key d, t.sources.length + 1)]⟩ :
                  CitationTracker) ds).1,
             ("[Source " ++ toString (t.sources.length + 1) ++ "] " ++ d.page_content)
               :: (format_context_go
                (⟨t.sources ++ [d],
                  t.source_map ++ [(create_doc_key d, t.sources.length + 1)]⟩ :
                  CitationTracker) ds).2) := by
        show (let r := add_document t d
              let rest := format_context_go r.2 ds
              (rest.1, ("[Source " ++ toString r.1 ++ "] " ++ d.page_content)
                :: rest.2)) = _
        rw [hadd]
      have hIH := format_go_spec ds
        (⟨t.sources ++ [d],
          t.source_map ++ [(create_doc_key d, t.sources.length + 1)]⟩ :
          CitationTracker)
        (pre ++ [create_doc_key d]) hlen' hfind'
      rw [hgo, happ, List.map_cons, hIH]
      have hid : (firstSeen ((pre ++ [create_doc_key d]) ++ ds.map create_doc_key)).indexOf
          (create_doc_key d) = t.sources.length := by
        rw [firstSeen_indexOf_stable _ _ _
          (by rw [hfs]; exact List.mem_append_right _ (by simp)), hfs,
          indexOf_snoc_self _ _ hk, hlen]
      rw [hid]

/-- Claim C7: adding two passages with the same `(filename, chunk_id)`
identity key returns the same 1-based `source_id` and leaves the tracker
unchanged (idempotence per key); and for a fresh tracker,
`format_context_with_citations` renders every document as a
`[Source N] content` block where `N` is the passage's first-seen rank among
the identity keys (so ids start at 1 and increase by 1 per new unique
passage, and each unique passage has exactly one id). -/
theorem citation_tracker_claims :
    (∀ (t : CitationTracker) (d e : Document),
        create_doc_key d = create_doc_key e →
        (add_document (add_document t d).2 e).1 = (add_document t d).1 ∧
        (add_document (add_document t d).2 e).2 = (add_document t d).2) ∧
    (∀ documents : List Document,
        (format_context_with_citations CitationTracker.init documents).2
          = String.intercalate "\n\n" (documents.map (fun d =>
              "[Source " ++ toString (specRank documents d) ++ "] "
                ++ d.page_content))) := by
  have add_document_eq : ∀ (t : CitationTracker) (d : Document),
      add_document t d
        = match t.source_map.find? (fun p => p.1 == create_doc_key d) with
          | some p => (p.2, t)
          | none => (t.sources.length + 1,
              ⟨t.sources ++ [d],
               t.source_map ++ [(create_doc_key d, t.sources.length + 1)]⟩) :=
    fun _ _ => rfl
  constructor
  · intro t d e hde
    have hkey : create_doc_key e = create_doc_key d := hde.symm
    cases hf : t.source_map.find? (fun p => p.1 == create_doc_key d) with
    | some p =>
      have h1 : add_document t d = (p.2, t) := by rw [add_document_eq, hf]
      have h2 : add_document t e = (p.2, t) := by rw [add_document_eq, hkey, hf]
      rw [h1]
      show (add_document t e).1 = p.2 ∧ (add_document t e).2 = t
      rw [h2]
      exact ⟨rfl, rfl⟩
    | none =>
      have h1 : add_document t d
          = (t.sources.length + 1,
             ⟨t.sources ++ [d],
              t.source_map ++ [(create_doc_key d, t.sources.length + 1)]⟩) := by
        rw [add_document_eq, hf]
      have hf2 : ((⟨t.sources ++ [d],
            t.source_map ++ [(create_doc_key d, t.sources.length + 1)]⟩ :
            CitationTracker)).source_map.find? (fun p => p.1 == create_doc_key e)
          = some (create_doc_key d, t.sources.length + 1) := by
        show (t.source_map ++ [(create_doc_key d, t.sources.length + 1)]).find?
            (fun p => p.1 == create_doc_key e) = _
        rw [hkey, List.find?_append, hf, Option.none_or,
          List.find?_cons_of_pos _ (by simp)]
      have h2 : add_document (⟨t.sources ++ [d],
            t.source_map ++ [(create_doc_key d, t.sources.length + 1)]⟩ :
            CitationTracker) e
          = (t.sources.length + 1,
             ⟨t.sources ++ [d],
              t.source_map ++ [(create_doc_key d, t.sources.length + 1)]⟩) := by
        rw [add_document_eq, hf2]
      rw [h1]
      show (add_document (⟨t.sources ++ [d],
            t.source_map ++ [(create_doc_key d, t.sources.length + 1)]⟩ :
            CitationTracker) e).1 = t.sources.length + 1 ∧
          (add_document (⟨t.sources ++ [d],
            t.source_map ++ [(create_doc_key d, t.sources.length + 1)]⟩ :
            CitationTracker) e).2
            = (⟨t.sources ++ [d],
               t.source_map ++ [(create_doc_key d, t.sources.length + 1)]⟩ :
               CitationTracker)
      rw [h2]
      exact ⟨rfl, rfl⟩
  · intro documents
    have h := format_go_spec documents CitationTracker.init []
      (by rfl) (by intro k; rfl)
    show String.intercalate "\n\n" (format_context_go CitationTracker.init documents).2
      = _
    rw [h]
    simp only [List.nil_append]
    unfold specRank
    rfl

/-- Witness for `citation_tracker_claims`: re-adding the same passage (same
key, trivially) returns the same id and tracker. -/
theorem citation_tracker_claims_witness :
    create_doc_key docDup = create_doc_key docDup ∧
    ((add_document (add_document CitationTracker.init docDup).2 docDup).1
        = (add_document CitationTracker.init docDup).1 ∧
     (add_document (add_document CitationTracker.init docDup).2 docDup).2
        = (add_document CitationTracker.init docDup).2) :=
  ⟨rfl, citation_tracker_claims.1 CitationTracker.init docDup docDup rfl⟩

/-- Claim C9 as stated is false of the code: on a multi-part query whose
decomposition call raises, `expand` does not degrade to the single-element
plan `[original_query]` — the single-query variation path still runs, and a
variation batch repeating one line is appended twice (the batch is filtered
against a snapshot of the plan, so duplicates inside one batch survive).
Here the decomposition oracle raises and the variation oracle returns
`"x\nx"`, and the plan has three elements with an exact duplicate. -/
theorem expand_decomposition_failure_counterexample :
    expand (fun _ => Except.error ()) (fun _ _ => Except.ok "x\nx")
        "How do revenue trends compare? What risks matter?" 2
      = ["How do revenue trends compare? What risks matter?", "x", "x"] := by
  decide

/-- A raising decomposition call degrades `_decompose_query` to
`[query]`. -/
theorem decompose_query_failure (dec : String → Except Unit String)
    (query : String) (h : dec query = Except.error ()) :
    decompose_query dec query = [query] := by
  unfold decompose_query
  cases hind : (multi_part_indicators query).any id with
  | false => simp [hind]
  | true => simp [hind, h]

/-- `expandMultiStep` keeps the head of a non-empty accumulator. -/
theorem expandMultiStep_head (var : String → Nat → Except Unit String)
    (n : Nat) (acc : List String) (s query : String)
    (h : acc.head? = some query) :
    (expandMultiStep var n acc s).head? = some query := by
  unfold expandMultiStep
  have haq1 : (if acc.contains s then acc else acc ++ [s]).head? = some query := by
    by_cases hc : acc.contains s
    · rw [if_pos hc]
      exact h
    · rw [if_neg hc, List.head?_append, h]
      rfl
  by_cases he : should_expand s
  · rw [if_pos he, List.head?_append, haq1]
    rfl
  · rw [if_neg he]
    exact haq1

theorem foldl_expandMultiStep_head (var : String → Nat → Except Unit String)
    (n : Nat) (query : String) :
    ∀ (subs : List String) (acc : List String), acc.head? = some query →
      (subs.foldl (expandMultiStep var n) acc).head? = some query
  | [], _, h => h
  | s :: subs, acc, h => by
    rw [List.foldl_cons]
    exact foldl_expandMultiStep_head var n query subs _
      (expandMultiStep_head var n acc s query h)

/-- `expandSingle` keeps the original query first. -/
theorem expandSingle_head (var : String → Nat → Except Unit String)
    (query : String) (n : Nat) :
    (expandSingle var query n).head? = some query := by
  unfold expandSingle
  by_cases he : should_expand query
  · rw [if_pos he]
    rfl
  · rw [if_neg he]
    rfl

/-- Appending a batch filtered against the accumulated plan preserves
`Nodup` when the batch itself is duplicate-free. -/
theorem nodup_append_filter (l vs : List String) (hl : l.Nodup)
    (hvs : vs.Nodup) :
    (l ++ vs.filter (fun v => !(l.contains v))).Nodup := by
  rw [List.nodup_append]
  refine ⟨hl, List.Nodup.filter _ hvs, ?_⟩
  intro a ha hafil
  have hcon := List.of_mem_filter hafil
  simp only [Bool.not_eq_true'] at hcon
  have hnotmem : a ∉ l := by
    intro hmem
    have helem : List.elem a l = true := List.elem_eq_true_of_mem hmem
    rw [show l.contains a = List.elem a l from rfl, helem] at hcon
    exact Bool.noConfusion hcon
  exact hnotmem ha

/-- `expandMultiStep` preserves `Nodup` when every variation batch is
duplicate-free. -/
theorem expandMultiStep_nodup (var : String → Nat → Except Unit String)
    (n : Nat) (hv : ∀ q m, (generate_variations var q m).Nodup)
    (acc : List String) (s : String) (h : acc.Nodup) :
    (expandMultiStep var n acc s).Nodup := by
  unfold expandMultiStep
  by_cases hc : acc.contains s
  · rw [if_pos hc]
    by_cases he : should_expand s
    · rw [if_pos he]
      exact nodup_append_filter acc _ h (hv s n)
    · rw [if_neg he]
      exact h
  · rw [if_neg hc]
    have hs : s ∉ acc := fun hmem => hc (List.elem_eq_true_of_mem hmem)
    have hacc' : (acc ++ [s]).Nodup := by
      simp [List.nodup_append, h, hs]
    by_cases he : should_expand s
    · rw [if_pos he]
      exact nodup_append_filter (acc ++ [s]) _ hacc' (hv s n)
    · rw [if_neg he]
      exact hacc'

theorem foldl_expandMultiStep_nodup (var : String → Nat → Except Unit String)
    (n : Nat) (hv : ∀ q m, (generate_variations var q m).Nodup) :
    ∀ (subs : List String) (acc : List String), acc.Nodup →
      (subs.foldl (expandMultiStep var n) acc).Nodup
  | [], _, h => h
  | s :: subs, acc, h => by
    rw [List.foldl_cons]
    exact foldl_expandMultiStep_nodup var n hv subs _
      (expandMultiStep_nodup var n hv acc s h)

theorem expandSingle_nodup (var : String → Nat → Except Unit String)
    (query : String) (n : Nat)
    (hv : ∀ q m, (generate_variations var q m).Nodup) :
    (expandSingle var query n).Nodup := by
  unfold expandSingle
  by_cases he : should_expand query
  · rw [if_pos he]
    exact nodup_append_filter [query] _ (List.nodup_singleton query) (hv query n)
  · rw [if_neg he]
    exact List.nodup_singleton query

/-- Claim C9 (amended): `expand` never raises and always returns a plan
whose first element is the original query; a variation already present in
the plan is skipped, so the plan is duplicate-free whenever each generated
variation batch is itself duplicate-free (a batch repeating a line is
appended with the repetition); a decomposition failure degrades the
decomposition step to `[original_query]`, after which the plan is exactly
the single-query expansion path (which may still add variations); when
variation generation also fails, the plan is exactly `[original_query]`. -/
theorem expand_amended (dec : String → Except Unit String)
    (var : String → Nat → Except Unit String) (query : String)
    (num_variations : Nat) :
    (expand dec var query num_variations).head? = some query ∧
    ((∀ q m, (generate_variations var q m).Nodup) →
      (expand dec var query num_variations).Nodup) ∧
    (dec query = Except.error () →
      expand dec var query num_variations = expandSingle var query num_variations) ∧
    (dec query = Except.error () → (∀ q m, var q m = Except.error ()) →
      expand dec var query num_variations = [query]) := by
  have hsplit : expand dec var query num_variations
      = if (decompose_query dec query).length > 1
        then (decompose_query dec query).foldl
          (expandMultiStep var num_variations) [query]
        else expandSingle var query num_variations := rfl
  refine ⟨?_, ?_, ?_, ?_⟩
  · rw [hsplit]
    by_cases hl : (decompose_query dec query).length > 1
    · rw [if_pos hl]
      exact foldl_expandMultiStep_head var num_variations query _ [query] rfl
    · rw [if_neg hl]
      exact expandSingle_head var query num_variations
  · intro hv
    rw [hsplit]
    by_cases hl : (decompose_query dec query).length > 1
    · rw [if_pos hl]
      exact foldl_expandMultiStep_nodup var num_variations hv _ [query]
        (List.nodup_singleton query)
    · rw [if_neg hl]
      exact expandSingle_nodup var query num_variations hv
  · intro hdec
    rw [hsplit, decompose_query_failure dec query hdec]
    rfl
  · intro hdec hvar
    rw [hsplit, decompose_query_failure dec query hdec]
    have hgen : generate_variations var query num_variations = [] := by
      unfold generate_variations
      rw [hvar query num_variations]
    show expandSingle var query num_variations = [query]
    unfold expandSingle
    by_cases he : should_expand query
    · rw [if_pos he, hgen]
      rfl
    · rw [if_neg he]

/-- Witness for `expand_amended` with raising oracles. -/
theorem expand_amended_witness :
    (expand (fun _ => Except.error ()) (fun _ _ => Except.error ()) "q" 2).head?
        = some "q" ∧
    ((expand (fun _ => Except.error ()) (fun _ _ => Except.error ()) "q" 2).Nodup ∧
     expand (fun _ => Except.error ()) (fun _ _ => Except.error ()) "q" 2
        = expandSingle (fun _ _ => Except.error ()) "q" 2 ∧
     expand (fun _ => Except.error ()) (fun _ _ => Except.error ()) "q" 2 = ["q"]) := by
  have h := expand_amended (fun _ => Except.error ())
    (fun _ _ => Except.error ()) "q" 2
  exact ⟨h.1,
    h.2.1 (fun q m => by
      show (generate_variations (fun _ _ => Except.error ()) q m).Nodup
      unfold generate_variations
      exact List.nodup_nil),
    h.2.2.1 rfl,
    h.2.2.2 rfl (fun _ _ => rfl)⟩
